import Mathlib

/-!
# expvarmon: the per-service update protocol (`service.go`)

A shallow embedding of `service.go`: `NewService`, `GetExpvar` and
`Service.Update`, with the HTTP response of one poll passed in explicitly.

* Go strings are `String`; `len(x) == 0` is `x.length = 0`.
* `uint64` is a `Nat` below `2 ^ 64`; `int` is the 64-bit signed integer, an
  `Int`, and `int(x)` of a `uint64` wraps modulo `2 ^ 64`.
* `map[string]*Stack` is a function `String → Option Stack`; the pointer
  aliasing of `mem` and `s.Values["memory"]` is made explicit by writing the
  pushed history back under its key.
* `Stack`, `Expvar`, `ParseExpvar`, `BaseCommand` and `ExpvarsUrl` are declared
  in other files of the package, outside `service.go`. `ParseExpvar` and
  `BaseCommand` are parameters of the embedding; `Stack` and a `BaseCommand`
  are modelled from the specification where a property is about them.
-/

namespace Expvarmon

/-! ## Data model -/

/-- The body of an HTTP response, as read by `ParseExpvar`. -/
abbrev Body := String

/-- The two fields of `runtime.MemStats` that `service.go` reads, both `uint64`. -/
structure MemStats where
  Alloc : Nat
  Sys : Nat
  deriving DecidableEq, Repr

/-- Go `error` values that reach `Service.Err`, by their origin: the error
returned by `http.Get` (always a `*url.Error`), the value built by
`errors.New("Vars not found. Did you import expvars?")` on line 46, and the
error returned by `ParseExpvar`. Go compares errors by dynamic type and
identity, so values of different origins are never equal. -/
inductive Error where
  | transport (msg : String)
  | varsNotFound
  | parse (msg : String)
  deriving DecidableEq, Repr

/-- Result of `http.Get(addr)`: a transport error, or a response with its
status code and body. -/
inductive HttpResult where
  | failure (msg : String)
  | response (StatusCode : Nat) (body : Body)
  deriving DecidableEq, Repr

/-- The `Expvar` snapshot type, with the three fields `service.go` uses
(`Cmdline`, `MemStats`, `Err`); a nil `*runtime.MemStats` is `none`. -/
structure Expvar where
  Cmdline : List String
  MemStats : Option MemStats
  Err : Option Error
  deriving DecidableEq, Repr

/-- The zero value `var e Expvar`. -/
def Expvar.zero : Expvar := { Cmdline := [], MemStats := none, Err := none }

/-- Modelled from the spec: the `Stack` type (RollingHistory), whose file is
declared outside `service.go`. A fixed capacity `Len` and the ordered sequence of
samples, oldest first. -/
structure Stack where
  Len : Nat
  Values : List Int
  deriving DecidableEq, Repr

/-- Modelled from the spec: `NewStack(size)` (declared outside `service.go`)
"returns an empty history with that capacity". -/
def NewStack (size : Nat) : Stack := { Len := size, Values := [] }

/-- Modelled from the spec: `Stack.Push` (declared outside `service.go`) "appends one
numeric sample. If the history is at capacity, the oldest sample is discarded
so that exactly N most-recent samples remain, in arrival order". -/
def Stack.Push (s : Stack) (val : Int) : Stack :=
  if s.Values.length < s.Len then { s with Values := s.Values ++ [val] }
  else { s with Values := (s.Values ++ [val]).drop (s.Values.length + 1 - s.Len) }

/-- Pushes a sequence of samples in order. -/
def Stack.pushAll (s : Stack) (vals : List Int) : Stack := vals.foldl Stack.Push s

/-- The `Service` struct. -/
structure Service where
  Port : String
  Name : String
  Cmdline : String
  MemStats : Option MemStats
  Values : String → Option Stack
  Err : Option Error

/-- Assignment `m[key] = st` on a Go map. -/
def mapSet (m : String → Option Stack) (key : String) (st : Stack) : String → Option Stack :=
  fun k => if k = key then some st else m k

/-- `NewService(port)`: the port doubles as the name until it is resolved. -/
def NewService (port : String) : Service :=
  { Port := port, Name := port, Cmdline := "", MemStats := none,
    Values := fun _ => none, Err := none }

/-- `http.StatusNotFound`. -/
def StatusNotFound : Nat := 404

/-- `GetExpvar(addr)`, given the result `resp` of `http.Get(addr)` and the
function `ParseExpvar` (declared outside `service.go`): what it returns for a body is
the snapshot behind the returned pointer, which line 49 dereferences
unconditionally, and the error. -/
def GetExpvar (ParseExpvar : Body → Expvar × Option String) (resp : HttpResult) :
    Expvar × Option Error :=
  match resp with
  | .failure msg => (Expvar.zero, some (.transport msg))
  | .response code body =>
    if code = StatusNotFound then (Expvar.zero, some .varsNotFound)
    else
      match ParseExpvar body with
      | (e, some msg) => (e, some (.parse msg))
      | (e, none) => (e, none)

/-- The conversion `int(x)` of a `uint64` to the signed `int` (64 bits wide on
a 64-bit platform): the bit pattern is kept, so values from `2 ^ 63` on become
negative. -/
def toInt (x : Nat) : Int :=
  if x % 2 ^ 64 < 2 ^ 63 then (x % 2 ^ 64 : Nat) else (x % 2 ^ 64 : Nat) - 2 ^ 64

/-- `Service.Update`, given the helpers `ParseExpvar` and `BaseCommand` (declared
outside `service.go`) and the result of the HTTP request to `s.Addr()`. -/
def Service.Update (ParseExpvar : Body → Expvar × Option String)
    (BaseCommand : List String → String) (s : Service) (resp : HttpResult) : Service :=
  let (expvar, err) := GetExpvar ParseExpvar resp
  let expvar : Expvar := match err with
    | some e => { expvar with Err := some e }
    | none => expvar
  let s : Service := { s with Err := expvar.Err, MemStats := expvar.MemStats }
  -- Update name and cmdline only if empty
  let s : Service :=
    if s.Cmdline.length = 0 then
      { s with Cmdline := " ".intercalate expvar.Cmdline, Name := BaseCommand expvar.Cmdline }
    else s
  -- Put metrics data
  let (s, mem) : Service × Stack := match s.Values "memory" with
    | some mem => (s, mem)
    | none => ({ s with Values := mapSet s.Values "memory" (NewStack 1200) }, NewStack 1200)
  match s.MemStats with
  | some ms => { s with Values := mapSet s.Values "memory" (mem.Push ((toInt ms.Alloc).tdiv 1024)) }
  | none => s

/-- Modelled from the spec: `BaseCommand` (declared outside `service.go`) derives the
name as "the base executable name (last path component of the first
command-line token)"; "if argv[0] contains no path separator, the whole token
is the name". Without a first token there is no name. -/
def BaseCommand (cmdline : List String) : String :=
  match cmdline with
  | [] => ""
  | arg0 :: _ => ⟨(arg0.data.reverse.takeWhile (fun c => c != '/')).reverse⟩

/-- A run of polls: `Update` applied to each HTTP result in turn. -/
def Service.updates (ParseExpvar : Body → Expvar × Option String)
    (BaseCommand : List String → String) (s : Service) (resps : List HttpResult) : Service :=
  resps.foldl (Service.Update ParseExpvar BaseCommand) s

/-- The samples of the "memory" history, oldest first; none when there is no
such history yet. -/
def Service.memory (s : Service) : List Int :=
  match s.Values "memory" with
  | some st => st.Values
  | none => []

/-- The sample `Update` pushes for a reading: `int(Alloc) / 1024`, with Go's
truncating division. -/
def sampleOf (ms : MemStats) : Int := (toInt ms.Alloc).tdiv 1024

/-- The history `Update` works on: the one under "memory", or a new one of
capacity 1200 when the key is absent. -/
def Service.history (s : Service) : Stack := (s.Values "memory").getD (NewStack 1200)

/-- The last `n` elements of a list. -/
def lastN (n : Nat) (xs : List Int) : List Int := xs.drop (xs.length - n)

/-- The samples a poll contributes to the history: the converted reading when
the snapshot carries memory statistics, nothing otherwise. -/
def pushed (ParseExpvar : Body → Expvar × Option String) (resp : HttpResult) : List Int :=
  match (GetExpvar ParseExpvar resp).1.MemStats with
  | some ms => [sampleOf ms]
  | none => []

/-- The samples contributed by a run of polls, in order. -/
def pushedAll (ParseExpvar : Body → Expvar × Option String) : List HttpResult → List Int
  | [] => []
  | resp :: rest => pushed ParseExpvar resp ++ pushedAll ParseExpvar rest

/-- A payload with a command line and memory statistics. -/
def goodBody : Body := "cmdline: /bin/app --flag, memstats: Alloc: 1024"

/-- A payload cut short. -/
def truncatedBody : Body := "cmdline"

/-- A `ParseExpvar` for the examples: it decodes `goodBody` and reports an error,
with an empty snapshot, for any other payload. -/
def sampleParse : Body → Expvar × Option String := fun body =>
  if body = goodBody then (⟨["/bin/app", "--flag"], some ⟨1024, 4096⟩, none⟩, none)
  else (Expvar.zero, some "unexpected end of JSON input")

/-- Modelled from the spec: `ParseExpvar` (declared outside `service.go`) on a
malformed payload "returns a Snapshot with the error field set to the parse
error"; a failed poll yields no reading ("If the poll failed, no sample is
pushed"), so a snapshot returned with an error carries no memory statistics,
as the zero-value snapshots of the other two failure paths do. -/
def failsWithoutMemStats (ParseExpvar : Body → Expvar × Option String) : Prop :=
  ∀ body, (ParseExpvar body).2 ≠ none → (ParseExpvar body).1.MemStats = none

/-! ## Field-by-field description of `Update` -/

theorem GetExpvar_failure (P : Body → Expvar × Option String) (msg : String) :
    GetExpvar P (.failure msg) = (Expvar.zero, some (.transport msg)) := rfl

theorem GetExpvar_notFound (P : Body → Expvar × Option String) (body : Body) :
    GetExpvar P (.response 404 body) = (Expvar.zero, some .varsNotFound) := by
  simp [GetExpvar, StatusNotFound]

theorem GetExpvar_other (P : Body → Expvar × Option String) (code : Nat) (body : Body)
    (h : code ≠ 404) :
    GetExpvar P (.response code body) = ((P body).1, (P body).2.map Error.parse) := by
  unfold GetExpvar
  simp only [StatusNotFound, h, if_false]
  rcases hp : P body with ⟨e, _ | msg⟩ <;> simp

theorem length_eq_zero_iff (x : String) : x.length = 0 ↔ x = "" := by
  constructor
  · intro h
    have : x.data = [] := List.length_eq_zero.mp h
    exact String.ext this
  · rintro rfl
    rfl

theorem Update_Err (P : Body → Expvar × Option String) (B : List String → String)
    (s : Service) (resp : HttpResult) :
    (s.Update P B resp).Err =
      match (GetExpvar P resp).2 with
      | some e => some e
      | none => (GetExpvar P resp).1.Err := by
  unfold Service.Update
  rcases GetExpvar P resp with ⟨e, _ | err⟩ <;> dsimp only <;>
    split <;> split <;> split <;> simp_all

theorem Update_MemStats (P : Body → Expvar × Option String) (B : List String → String)
    (s : Service) (resp : HttpResult) :
    (s.Update P B resp).MemStats = (GetExpvar P resp).1.MemStats := by
  unfold Service.Update
  rcases GetExpvar P resp with ⟨e, _ | err⟩ <;> dsimp only <;>
    split <;> split <;> split <;> simp_all

theorem Update_Cmdline (P : Body → Expvar × Option String) (B : List String → String)
    (s : Service) (resp : HttpResult) :
    (s.Update P B resp).Cmdline =
      if s.Cmdline = "" then " ".intercalate (GetExpvar P resp).1.Cmdline else s.Cmdline := by
  unfold Service.Update
  rcases GetExpvar P resp with ⟨e, _ | err⟩ <;> dsimp only <;>
    split <;> split <;> split <;> simp_all [length_eq_zero_iff]

theorem Update_Name (P : Body → Expvar × Option String) (B : List String → String)
    (s : Service) (resp : HttpResult) :
    (s.Update P B resp).Name =
      if s.Cmdline = "" then B (GetExpvar P resp).1.Cmdline else s.Name := by
  unfold Service.Update
  rcases GetExpvar P resp with ⟨e, _ | err⟩ <;> dsimp only <;>
    split <;> split <;> split <;> simp_all [length_eq_zero_iff]

theorem Update_Values (P : Body → Expvar × Option String) (B : List String → String)
    (s : Service) (resp : HttpResult) (k : String) :
    (s.Update P B resp).Values k =
      if k = "memory" then
        some (match (GetExpvar P resp).1.MemStats with
          | some ms => s.history.Push (sampleOf ms)
          | none => s.history)
      else s.Values k := by
  unfold Service.Update Service.history sampleOf
  rcases GetExpvar P resp with ⟨e, _ | err⟩ <;> dsimp only <;>
    split <;> split <;> split <;> simp_all [mapSet] <;> split <;> simp_all

/-! ## The rolling history -/

theorem Push_Len (s : Stack) (v : Int) : (s.Push v).Len = s.Len := by
  unfold Stack.Push
  split <;> rfl

theorem Push_Values (s : Stack) (v : Int) :
    (s.Push v).Values = lastN s.Len (s.Values ++ [v]) := by
  unfold Stack.Push lastN
  split
  · next h =>
    have : (s.Values ++ [v]).length - s.Len = 0 := by
      simp only [List.length_append, List.length_singleton]; omega
    rw [this]; rfl
  · simp only [List.length_append, List.length_singleton]

theorem lastN_length (n : Nat) (xs : List Int) : (lastN n xs).length = min n xs.length := by
  unfold lastN
  rw [List.length_drop]
  omega

theorem lastN_lastN_append (n : Nat) (a b : List Int) :
    lastN n (lastN n a ++ b) = lastN n (a ++ b) := by
  unfold lastN
  by_cases h : a.length ≤ n
  · have : a.length - n = 0 := by omega
    rw [this, List.drop_zero]
  · have hlen : (List.drop (a.length - n) a ++ b).length - n = b.length := by
      simp only [List.length_append, List.length_drop]; omega
    have hlen2 : (a ++ b).length - n = (a.length - n) + b.length := by
      simp only [List.length_append]; omega
    have hd : List.drop (a.length - n) (a ++ b) = List.drop (a.length - n) a ++ b :=
      List.drop_append_of_le_length (by omega)
    rw [hlen, hlen2, ← List.drop_drop, hd]

theorem pushAll_Len (vals : List Int) (s : Stack) : (s.pushAll vals).Len = s.Len := by
  induction vals generalizing s with
  | nil => rfl
  | cons v vs ih =>
    show ((s.Push v).pushAll vs).Len = s.Len
    rw [ih, Push_Len]

theorem pushAll_Values (vals : List Int) (s : Stack) (h : s.Values.length ≤ s.Len) :
    (s.pushAll vals).Values = lastN s.Len (s.Values ++ vals) := by
  induction vals generalizing s with
  | nil =>
    show s.Values = _
    unfold lastN
    have : (s.Values ++ []).length - s.Len = 0 := by simp; omega
    rw [this]; simp
  | cons v vs ih =>
    show ((s.Push v).pushAll vs).Values = _
    have hle : (s.Push v).Values.length ≤ (s.Push v).Len := by
      rw [Push_Values, Push_Len, lastN_length]; omega
    rw [ih _ hle, Push_Len, Push_Values, lastN_lastN_append, List.append_assoc]
    rfl
theorem pushAll_append (s : Stack) (a b : List Int) :
    s.pushAll (a ++ b) = (s.pushAll a).pushAll b := by
  unfold Stack.pushAll
  rw [List.foldl_append]

theorem memory_eq_history (s : Service) : s.memory = s.history.Values := by
  unfold Service.memory Service.history
  cases s.Values "memory" <;> rfl

theorem history_Update (P : Body → Expvar × Option String) (B : List String → String)
    (s : Service) (resp : HttpResult) :
    (s.Update P B resp).history = s.history.pushAll (pushed P resp) := by
  have h := Update_Values P B s resp "memory"
  rw [if_pos rfl] at h
  unfold Service.history at h ⊢
  unfold pushed
  rw [h]
  cases (GetExpvar P resp).1.MemStats <;> rfl

theorem history_updates (P : Body → Expvar × Option String) (B : List String → String)
    (resps : List HttpResult) (s : Service) :
    (s.updates P B resps).history = s.history.pushAll (pushedAll P resps) := by
  induction resps generalizing s with
  | nil => rfl
  | cons r rs ih =>
    show ((s.Update P B r).updates P B rs).history = _
    rw [ih, history_Update, pushedAll, pushAll_append]

/-! ## Identity, error and memory-statistics fields -/

/-- C1: a Service whose Cmdline is non-empty keeps its Name and its Cmdline
through Update, whatever the request returned (transport failure, 404, a body
that parses or fails to parse) and whatever the helpers compute. -/
theorem C1_identity_write_once (P : Body → Expvar × Option String)
    (B : List String → String) (s : Service) (resp : HttpResult) (h : s.Cmdline ≠ "") :
    (s.Update P B resp).Name = s.Name ∧ (s.Update P B resp).Cmdline = s.Cmdline := by
  rw [Update_Name, Update_Cmdline, if_neg h, if_neg h]
  exact ⟨rfl, rfl⟩

/-- Instance of C1: a service resolved as "app" is polled and the endpoint now
reports another command line. -/
theorem C1_identity_write_once_witness :
    ({ NewService "8080" with Name := "app", Cmdline := "/bin/app --flag" } : Service).Cmdline ≠ "" ∧
    (Service.Update (fun _ => (⟨["/usr/bin/other"], none, none⟩, none)) BaseCommand
        { NewService "8080" with Name := "app", Cmdline := "/bin/app --flag" }
        (.response 200 "")).Name = "app" ∧
    (Service.Update (fun _ => (⟨["/usr/bin/other"], none, none⟩, none)) BaseCommand
        { NewService "8080" with Name := "app", Cmdline := "/bin/app --flag" }
        (.response 200 "")).Cmdline = "/bin/app --flag" :=
  ⟨by decide, C1_identity_write_once _ _ _ _ (by decide)⟩

/-- C3: after Update the Err field is the error of this poll alone. It does not
depend on the Err the Service held before; it is the error GetExpvar returned
when there is one (transport failure, 404 or parse failure), and it is nil when
GetExpvar returned no error and the snapshot carries none. -/
theorem C3_err_reflects_last_poll (P : Body → Expvar × Option String)
    (B : List String → String) (s : Service) (resp : HttpResult) :
    (∀ prev : Option Error,
      (Service.Update P B { s with Err := prev } resp).Err = (s.Update P B resp).Err) ∧
    (∀ err : Error, (GetExpvar P resp).2 = some err → (s.Update P B resp).Err = some err) ∧
    ((GetExpvar P resp).2 = none → (GetExpvar P resp).1.Err = none →
      (s.Update P B resp).Err = none) := by
  refine ⟨fun prev => ?_, fun err h => ?_, fun h h1 => ?_⟩
  · rw [Update_Err, Update_Err]
  · rw [Update_Err, h]
  · rw [Update_Err, h]
    exact h1

/-- Instance of C3: a Service holding a transport error is polled successfully
and its Err is cleared; polled against a 404 it holds the not-found error. -/
theorem C3_err_reflects_last_poll_witness :
    (Service.Update (fun _ => (⟨["/bin/app"], some ⟨2048, 4096⟩, none⟩, none)) BaseCommand
        { NewService "8080" with Err := some (.transport "connection refused") }
        (.response 200 "")).Err = none ∧
    (Service.Update (fun _ => (⟨["/bin/app"], some ⟨2048, 4096⟩, none⟩, none)) BaseCommand
        { NewService "8080" with Err := some (.transport "connection refused") }
        (.response 404 "")).Err = some .varsNotFound :=
  ⟨(C3_err_reflects_last_poll _ BaseCommand
      { NewService "8080" with Err := some (.transport "connection refused") }
      (.response 200 "")).2.2 (by decide) (by decide),
   (C3_err_reflects_last_poll _ BaseCommand
      { NewService "8080" with Err := some (.transport "connection refused") }
      (.response 404 "")).2.1 _ (by decide)⟩

/-- C6: after Update the MemStats field is the memory statistics of this
poll's snapshot, whatever the Service held before; after a transport failure
or a 404 it is nil. -/
theorem C6_memstats_overwritten (P : Body → Expvar × Option String)
    (B : List String → String) (s : Service) (resp : HttpResult) :
    (s.Update P B resp).MemStats = (GetExpvar P resp).1.MemStats ∧
    (∀ msg, (s.Update P B (.failure msg)).MemStats = none) ∧
    (∀ body, (s.Update P B (.response 404 body)).MemStats = none) := by
  refine ⟨Update_MemStats P B s resp, fun msg => ?_, fun body => ?_⟩
  · rw [Update_MemStats, GetExpvar_failure]
    rfl
  · rw [Update_MemStats, GetExpvar_notFound]
    rfl

/-- C9: GetExpvar returns the transport error with a zero-value Expvar when the
request fails; a zero-value Expvar with the not-found error, which no transport
error equals, on status 404; and on any other status the snapshot and the error
of ParseExpvar on the body, so that it returns an error exactly when parsing
fails. -/
theorem C9_fetch_failure_kinds (P : Body → Expvar × Option String) :
    (∀ msg, GetExpvar P (.failure msg) = (Expvar.zero, some (.transport msg))) ∧
    (∀ body, GetExpvar P (.response 404 body) = (Expvar.zero, some .varsNotFound)) ∧
    (∀ msg, Error.varsNotFound ≠ Error.transport msg) ∧
    (∀ code body, code ≠ 404 →
      (GetExpvar P (.response code body)).1 = (P body).1 ∧
      (GetExpvar P (.response code body)).2 = (P body).2.map Error.parse ∧
      ((GetExpvar P (.response code body)).2 ≠ none ↔ (P body).2 ≠ none)) := by
  refine ⟨GetExpvar_failure P, GetExpvar_notFound P, fun msg h => Error.noConfusion h, ?_⟩
  intro code body h
  rw [GetExpvar_other P code body h]
  refine ⟨rfl, rfl, ?_⟩
  cases (P body).2 <;> simp

/-- Instance of C9: a 500 response whose body does not parse, and one whose
body parses. -/
theorem C9_fetch_failure_kinds_witness :
    (GetExpvar (fun b => if b = truncatedBody then (Expvar.zero, some "unexpected EOF")
        else (⟨["/bin/app"], none, none⟩, none)) (.response 500 truncatedBody)).2 ≠ none ∧
    (GetExpvar (fun b => if b = truncatedBody then (Expvar.zero, some "unexpected EOF")
        else (⟨["/bin/app"], none, none⟩, none)) (.response 500 goodBody)).1.Cmdline = ["/bin/app"] :=
  ⟨((C9_fetch_failure_kinds _).2.2.2 500 truncatedBody (by decide)).2.2.mpr (by decide),
   ((C9_fetch_failure_kinds _).2.2.2 500 goodBody (by decide)).1 ▸ (by decide)⟩

/-! ## The memory history across polls -/

theorem Update_without_memstats (P : Body → Expvar × Option String)
    (B : List String → String) (s : Service) (resp : HttpResult)
    (h : (GetExpvar P resp).1.MemStats = none) :
    (s.Update P B resp).Values "memory" = some s.history ∧
    (s.Update P B resp).memory = s.memory := by
  have hv : (s.Update P B resp).Values "memory" = some s.history := by
    rw [Update_Values, if_pos rfl, h]
  refine ⟨hv, ?_⟩
  rw [memory_eq_history s]
  unfold Service.memory
  rw [hv]

theorem Update_with_memstats (P : Body → Expvar × Option String)
    (B : List String → String) (s : Service) (resp : HttpResult) (ms : MemStats)
    (h : (GetExpvar P resp).1.MemStats = some ms) :
    (s.Update P B resp).Values "memory" = some (s.history.Push (sampleOf ms)) := by
  rw [Update_Values, if_pos rfl, h]

theorem GetExpvar_error_without_memstats (P : Body → Expvar × Option String)
    (hP : failsWithoutMemStats P) (resp : HttpResult) (hfail : (GetExpvar P resp).2 ≠ none) :
    (GetExpvar P resp).1.MemStats = none := by
  cases resp with
  | failure msg => rfl
  | response code body =>
    by_cases hc : code = 404
    · subst hc
      rw [GetExpvar_notFound]
      rfl
    · rw [GetExpvar_other P code body hc] at hfail ⊢
      apply hP body
      intro hnone
      apply hfail
      show Option.map Error.parse (P body).2 = none
      rw [hnone]
      rfl

/-- C2: a failed poll pushes no sample. After a transport failure and after a
404, for every ParseExpvar, and after every poll for which GetExpvar returns an
error (so also a parse error) when ParseExpvar returns no memory statistics
with an error, the "memory" history is the one the Service had before the call
(a new empty one of capacity 1200 if it had none), with the same samples and
the same length. -/
theorem C2_failed_poll_pushes_no_sample (P : Body → Expvar × Option String)
    (B : List String → String) (s : Service) :
    (∀ msg, (s.Update P B (.failure msg)).Values "memory" = some s.history ∧
      (s.Update P B (.failure msg)).memory = s.memory) ∧
    (∀ body, (s.Update P B (.response 404 body)).Values "memory" = some s.history ∧
      (s.Update P B (.response 404 body)).memory = s.memory) ∧
    (failsWithoutMemStats P → ∀ resp, (GetExpvar P resp).2 ≠ none →
      (s.Update P B resp).Values "memory" = some s.history ∧
      (s.Update P B resp).memory = s.memory ∧
      (s.Update P B resp).memory.length = s.memory.length) := by
  refine ⟨fun msg => Update_without_memstats P B s _ ?_,
    fun body => Update_without_memstats P B s _ ?_, fun hP resp hfail => ?_⟩
  · rw [GetExpvar_failure]; rfl
  · rw [GetExpvar_notFound]; rfl
  · obtain ⟨h1, h2⟩ :=
      Update_without_memstats P B s resp (GetExpvar_error_without_memstats P hP resp hfail)
    exact ⟨h1, h2, by rw [h2]⟩

/-- Instance of C2: a Service that holds one sample from a good poll is polled
again and the payload does not parse; it keeps its one sample. -/
theorem C2_failed_poll_pushes_no_sample_witness :
    failsWithoutMemStats sampleParse ∧
    (GetExpvar sampleParse (.response 200 truncatedBody)).2 ≠ none ∧
    (Service.Update sampleParse BaseCommand (NewService "8080") (.response 200 goodBody)).memory
      = [1] ∧
    (Service.Update sampleParse BaseCommand
      (Service.Update sampleParse BaseCommand (NewService "8080") (.response 200 goodBody))
      (.response 200 truncatedBody)).memory = [1] :=
  have hP : failsWithoutMemStats sampleParse := by
    intro body hne
    unfold sampleParse at hne ⊢
    split
    · next hb => rw [if_pos hb] at hne; exact absurd rfl hne
    · rfl
  ⟨hP, by decide, by decide,
   (((C2_failed_poll_pushes_no_sample sampleParse BaseCommand
      (Service.Update sampleParse BaseCommand (NewService "8080") (.response 200 goodBody))).2.2
      hP (.response 200 truncatedBody) (by decide)).2.1).trans (by decide)⟩

/-- C7: after Update the Values map has a history under "memory". When the key
was absent it is a new history of capacity 1200, and when the key was present
it is the history that was there, of the same capacity; in both cases as it
stands (with every sample it held) or after the one Push of this poll's
sample, in which case samples held below capacity all stay. Every other key
maps to what it mapped to before. -/
theorem C7_memory_history_lazy_and_persistent (P : Body → Expvar × Option String)
    (B : List String → String) (s : Service) (resp : HttpResult) :
    (s.Values "memory" = none →
      ∃ st, (s.Update P B resp).Values "memory" = some st ∧ st.Len = 1200 ∧
        (st = NewStack 1200 ∨ ∃ v, st = (NewStack 1200).Push v)) ∧
    (∀ old, s.Values "memory" = some old →
      ∃ st, (s.Update P B resp).Values "memory" = some st ∧ st.Len = old.Len ∧
        (st = old ∨ ∃ v, st = old.Push v) ∧
        (old.Values.length < old.Len → old.Values <+: st.Values)) ∧
    (∀ k, k ≠ "memory" → (s.Update P B resp).Values k = s.Values k) := by
  have hv := Update_Values P B s resp "memory"
  rw [if_pos rfl] at hv
  refine ⟨fun hnone => ?_, fun old hold => ?_, fun k hk => ?_⟩
  · have hh : s.history = NewStack 1200 := by
      unfold Service.history; rw [hnone]; rfl
    rw [hh] at hv
    cases hm : (GetExpvar P resp).1.MemStats with
    | none =>
      simp only [hm] at hv
      exact ⟨_, hv, rfl, Or.inl rfl⟩
    | some ms =>
      simp only [hm] at hv
      exact ⟨_, hv, by rw [Push_Len]; rfl, Or.inr ⟨_, rfl⟩⟩
  · have hh : s.history = old := by
      unfold Service.history; rw [hold]; rfl
    rw [hh] at hv
    cases hm : (GetExpvar P resp).1.MemStats with
    | none =>
      simp only [hm] at hv
      exact ⟨_, hv, rfl, Or.inl rfl, fun _ => List.prefix_refl _⟩
    | some ms =>
      simp only [hm] at hv
      refine ⟨_, hv, Push_Len _ _, Or.inr ⟨_, rfl⟩, fun hlt => ?_⟩
      unfold Stack.Push
      rw [if_pos hlt]
      exact List.prefix_append _ _
  · rw [Update_Values, if_neg hk]

/-- Instance of C7: a Service with one sample and a second history under
"goroutines" is polled against an unreachable address. -/
theorem C7_memory_history_lazy_and_persistent_witness :
    (Service.Update sampleParse BaseCommand
      { NewService "8080" with
        Values := mapSet (mapSet (fun _ => none) "memory" ⟨1200, [7]⟩) "goroutines" ⟨1200, [3]⟩ }
      (.failure "connection refused")).Values "goroutines" = some ⟨1200, [3]⟩ ∧
    ∃ st, (Service.Update sampleParse BaseCommand (NewService "8080")
        (.failure "connection refused")).Values "memory" = some st ∧ st.Len = 1200 ∧
      (st = NewStack 1200 ∨ ∃ v, st = (NewStack 1200).Push v) :=
  ⟨((C7_memory_history_lazy_and_persistent sampleParse BaseCommand
      { NewService "8080" with
        Values := mapSet (mapSet (fun _ => none) "memory" ⟨1200, [7]⟩) "goroutines" ⟨1200, [3]⟩ }
      (.failure "connection refused")).2.2 "goroutines" (by decide)).trans (by decide),
   (C7_memory_history_lazy_and_persistent sampleParse BaseCommand (NewService "8080")
      (.failure "connection refused")).1 rfl⟩

theorem sampleOf_below_2_pow_63 (alloc sys : Nat) (h : alloc < 2 ^ 63) :
    sampleOf ⟨alloc, sys⟩ = ((alloc / 1024 : Nat) : Int) := by
  have h1 : alloc % 2 ^ 64 = alloc := Nat.mod_eq_of_lt (by omega)
  unfold sampleOf toInt
  simp only [h1, h, if_true]
  rfl

/-- C8, at the failing input: a poll whose snapshot reports 2^63 allocated
bytes pushes the sample -2^53, where 2^63 / 1024 is 2^53; `int(Alloc)` wraps
to -2^63 before the division. -/
theorem C8_sample_wraps_at_2_pow_63 :
    (Service.Update (fun _ => (⟨["/bin/app"], some ⟨9223372036854775808, 0⟩, none⟩, none))
      BaseCommand (NewService "8080") (.response 200 goodBody)).memory = [-9007199254740992] ∧
    ((9223372036854775808 / 1024 : Nat) : Int) = 9007199254740992 := by
  decide

/-! ## Name resolution -/

theorem lastComponent_spec (l : List Char) :
    (∃ dir : List Char,
      l = dir ++ (l.reverse.takeWhile (fun c => c != '/')).reverse ∧
      (dir = [] ∨ dir.getLast? = some '/')) ∧
    '/' ∉ (l.reverse.takeWhile (fun c => c != '/')).reverse ∧
    ('/' ∉ l → (l.reverse.takeWhile (fun c => c != '/')).reverse = l) := by
  refine ⟨⟨(l.reverse.dropWhile (fun c => c != '/')).reverse, ?_, ?_⟩, ?_, ?_⟩
  · rw [← List.reverse_append, List.takeWhile_append_dropWhile, List.reverse_reverse]
  · cases hd : l.reverse.dropWhile (fun c => c != '/') with
    | nil => exact Or.inl rfl
    | cons c cs =>
      right
      have hne : l.reverse.dropWhile (fun c => c != '/') ≠ [] := by rw [hd]; simp
      have hc := List.head_dropWhile_not (fun c => c != '/') l.reverse hne
      simp only [hd, List.head_cons] at hc
      have : c = '/' := by simpa using hc
      rw [List.getLast?_reverse, List.head?_cons, this]
  · intro hmem
    rw [List.mem_reverse] at hmem
    have := List.mem_takeWhile_imp hmem
    simp at this
  · intro hno
    have : l.reverse.takeWhile (fun c => c != '/') = l.reverse := by
      rw [List.takeWhile_eq_self_iff]
      intro c hc
      rw [List.mem_reverse] at hc
      have : c ≠ '/' := fun h => hno (h ▸ hc)
      simpa using this
    rw [this, List.reverse_reverse]

/-- C4, at the failing input: on a fresh Service for port 8080 a poll that
fails in transport, or gets a 404, assigns Name and Cmdline from the empty
command line of the zero-value snapshot. Name becomes what BaseCommand gives
for no arguments, whatever that helper is, so it cannot stay the port for both
of two ports; with the base-name helper it becomes empty. Cmdline stays empty,
so the next poll assigns again. -/
theorem C4_failed_poll_overwrites_name (P : Body → Expvar × Option String)
    (B : List String → String) (msg : String) (body : Body) :
    (Service.Update P B (NewService "8080") (.failure msg)).Name = B [] ∧
    (Service.Update P B (NewService "8080") (.response 404 body)).Name = B [] ∧
    ((Service.Update P B (NewService "8080") (.failure msg)).Name ≠ "8080" ∨
      (Service.Update P B (NewService "9090") (.failure msg)).Name ≠ "9090") ∧
    (Service.Update P BaseCommand (NewService "8080") (.failure msg)).Name = "" ∧
    (Service.Update P B (NewService "8080") (.failure msg)).Cmdline = "" := by
  have h1 : ∀ port, (Service.Update P B (NewService port) (.failure msg)).Name = B [] := by
    intro port
    rw [Update_Name, GetExpvar_failure]
    rfl
  refine ⟨h1 _, ?_, ?_, ?_, ?_⟩
  · rw [Update_Name, GetExpvar_notFound]
    rfl
  · rw [h1, h1]
    by_cases h : B [] = "8080"
    · right
      rw [h]
      decide
    · exact Or.inl h
  · rw [Update_Name, GetExpvar_failure]
    rfl
  · rw [Update_Cmdline, GetExpvar_failure]
    rfl

/-- C5: when a Service with empty Cmdline is polled and the snapshot carries a
command line with first token arg0, Update sets Cmdline to the tokens joined
by single spaces, and (with the base-name helper) sets Name to the last path
component of arg0: arg0 is a directory part, empty or ending in the separator,
followed by Name; Name holds no separator; and Name is arg0 itself when arg0
holds no separator. -/
theorem C5_identity_resolution (P : Body → Expvar × Option String) (s : Service)
    (resp : HttpResult) (arg0 : String) (rest : List String) (h : s.Cmdline = "")
    (hc : (GetExpvar P resp).1.Cmdline = arg0 :: rest) :
    (s.Update P BaseCommand resp).Cmdline = " ".intercalate (arg0 :: rest) ∧
    (∃ dir : List Char, arg0.data = dir ++ (s.Update P BaseCommand resp).Name.data ∧
      (dir = [] ∨ dir.getLast? = some '/')) ∧
    '/' ∉ (s.Update P BaseCommand resp).Name.data ∧
    ('/' ∉ arg0.data → (s.Update P BaseCommand resp).Name = arg0) := by
  rw [Update_Cmdline, Update_Name, if_pos h, if_pos h, hc]
  obtain ⟨h1, h2, h3⟩ := lastComponent_spec arg0.data
  refine ⟨rfl, h1, h2, fun hno => ?_⟩
  show String.mk _ = arg0
  rw [h3 hno]

/-- Instance of C5: the command line /bin/app --flag resolves a fresh Service
to Name app and Cmdline "/bin/app --flag". -/
theorem C5_identity_resolution_witness :
    (Service.Update sampleParse BaseCommand (NewService "8080") (.response 200 goodBody)).Cmdline
      = "/bin/app --flag" ∧
    (Service.Update sampleParse BaseCommand (NewService "8080") (.response 200 goodBody)).Name
      = "app" :=
  ⟨(C5_identity_resolution sampleParse (NewService "8080") (.response 200 goodBody)
      "/bin/app" ["--flag"] rfl (by decide)).1.trans (by decide),
   by decide⟩

/-! ## Bound on the history -/

/-- C10: a history of capacity N that has received N + k pushes holds exactly N
samples, the last N pushed, in push order; with capacity 3 the pushes
1, 2, 3, 4 leave 2, 3, 4. A Service that started from NewService and went
through any run of polls has a "memory" history of capacity 1200 that holds
the last 1200 samples its polls pushed, so never more than 1200. -/
theorem C10_bounded_rolling_history (N k : Nat) (vals : List Int)
    (h : vals.length = N + k) :
    (((NewStack N).pushAll vals).Values.length = N ∧
      ((NewStack N).pushAll vals).Values = vals.drop k ∧
      ((NewStack N).pushAll vals).Len = N) ∧
    ((NewStack 3).pushAll [1, 2, 3, 4]).Values = [2, 3, 4] ∧
    (∀ (P : Body → Expvar × Option String) (B : List String → String) (port : String)
        (resps : List HttpResult),
      ((NewService port).updates P B resps).memory = lastN 1200 (pushedAll P resps) ∧
      ((NewService port).updates P B resps).memory.length ≤ 1200 ∧
      ∀ st, ((NewService port).updates P B resps).Values "memory" = some st → st.Len = 1200) := by
  have hv : ((NewStack N).pushAll vals).Values = vals.drop k := by
    rw [pushAll_Values vals (NewStack N) (Nat.zero_le _)]
    show lastN N ([] ++ vals) = _
    unfold lastN
    rw [List.nil_append, h, Nat.add_sub_cancel_left]
  refine ⟨⟨?_, hv, pushAll_Len _ _⟩, by decide, ?_⟩
  · rw [hv, List.length_drop, h, Nat.add_sub_cancel]
  · intro P B port resps
    have hh := history_updates P B resps (NewService port)
    have h0 : (NewService port).history = NewStack 1200 := rfl
    rw [h0] at hh
    have hm : ((NewService port).updates P B resps).memory = lastN 1200 (pushedAll P resps) := by
      rw [memory_eq_history, hh, pushAll_Values _ (NewStack 1200) (Nat.zero_le _)]
      rfl
    refine ⟨hm, ?_, fun st hst => ?_⟩
    · rw [hm, lastN_length]
      exact Nat.min_le_left _ _
    · have : ((NewService port).updates P B resps).history = st := by
        unfold Service.history; rw [hst]; rfl
      rw [← this, hh, pushAll_Len]
      rfl

/-- Instance of C10: capacity 2 and three pushes. -/
theorem C10_bounded_rolling_history_witness :
    ((NewStack 2).pushAll [5, 6, 7]).Values = [6, 7] :=
  (C10_bounded_rolling_history 2 1 [5, 6, 7] rfl).1.2.1

end Expvarmon
